import Mathlib

/-!
# Chat session model (`pkg/chat/model.go`)

A shallow embedding of the session state machine of `pkg/chat/model.go`:
`Model.Submit`, `Model.next`, `Model.Update`, `Model.process` and `Event.next`.

Conventions of the embedding:

* Go methods that mutate their receiver become functions that return the new value.
* A Go panic is the `Except.error` branch, carrying the panic text.
* `time.Now()` is the explicit argument `now`.
* A `tea.Cmd` closure is a value of `Cmd`; running the closure is `Cmd.run`, which
  reads the session as it is at the time the closure is run (the closures capture
  the receiver by pointer).
* The engine's run handle is a value: the events still to be received on its event
  channel before it is closed, and what `Text`, `State`, `ChatState` and `ErrorOutput` report.
-/

namespace time

/-- An instant; the zero value of Go's `time.Time` is `0`. -/
abbrev Time := Nat

/-- The method `Time.IsZero`. -/
def IsZero (t : Time) : Bool := t == 0

end time

namespace gptscript

/-- Modelled from the spec: the engine's `RunState`, a string type whose zero value is
the empty string, with the five states of the engine contract. -/
abbrev RunState := String

/-- Modelled from the spec: run state `Creating`. -/
abbrev Creating : RunState := "creating"
/-- Modelled from the spec: run state `Running`. -/
abbrev Running : RunState := "running"
/-- Modelled from the spec: run state `Continue`. -/
abbrev Continue : RunState := "continue"
/-- Modelled from the spec: run state `Finished`. -/
abbrev Finished : RunState := "finished"
/-- Modelled from the spec: run state `Error`. -/
abbrev Error : RunState := "error"

/-- Modelled from the spec: `RunState.IsTerminal`, true exactly for `Continue`, `Finished`
and `Error`. -/
def IsTerminal (rs : RunState) : Bool :=
  rs == Continue || rs == Finished || rs == Error

/-- Modelled from the spec: the engine's call context, an identifier, a parent identifier
and the displayable call metadata (kept as one field). -/
structure CallContext where
  ID : String
  ParentID : String
  Display : String
deriving DecidableEq, Repr

/-- Modelled from the spec: the kind of an engine event, a string type. -/
abbrev EventType := String

/-- Modelled from the spec: event kind call-start. -/
abbrev EventTypeCallStart : EventType := "callStart"
/-- Modelled from the spec: event kind call-progress. -/
abbrev EventTypeCallProgress : EventType := "callProgress"
/-- Modelled from the spec: event kind call-finish. -/
abbrev EventTypeCallFinish : EventType := "callFinish"

/-- Modelled from the spec: the fields of an engine event that the session consumes.
`CallContext` is a pointer in the engine's type, so it may be missing. -/
structure Event where
  Time : time.Time
  CallContext : Option CallContext
  Typ : EventType
  Content : String
deriving DecidableEq, Repr

/-- Modelled from the spec: the engine's run handle. `events` are the events still to be
received before the channel is closed; `text` and `textErr` are the two results of `Text()`;
`state`, `chatState` and `errorOutput` are what `State()`, `ChatState()` and
`ErrorOutput()` report. -/
structure Run where
  events : List Event
  text : String
  textErr : Option String
  state : RunState
  chatState : String
  errorOutput : String
deriving DecidableEq, Repr

/-- Modelled from the spec: the run options that `Model.next` sets. -/
structure Opts where
  IncludeEvents : Bool
  ChatState : String
  Input : String
deriving DecidableEq, Repr

/-- Modelled from the spec: the engine client, `Run(toolPath, opts)` returning a run handle
or an error text. -/
structure Client where
  Run : String → Opts → Except String gptscript.Run

end gptscript

namespace chat

open gptscript

set_option linter.dupNamespace false

/-- The struct `Call`: the embedded call context and the local bookkeeping. -/
structure Call where
  CallContext : gptscript.CallContext
  Start : time.Time
  End : time.Time
  Input : String
  Output : String
deriving DecidableEq, Repr

/-- The zero value of `Call`. -/
def Call.zero : Call :=
  { CallContext := { ID := "", ParentID := "", Display := "" },
    Start := 0, End := 0, Input := "", Output := "" }

/-- A Go `map[string]Call`: `nil` is the nil map, `mk es` a map holding the pairs `es`. -/
inductive CallMap where
  | nil : CallMap
  | mk (entries : List (String × Call)) : CallMap
deriving DecidableEq, Repr

/-- The pairs of a map; the nil map has none. -/
def CallMap.entries : CallMap → List (String × Call)
  | .nil => []
  | .mk es => es

/-- Go `len(m)`. -/
def CallMap.len (m : CallMap) : Nat := m.entries.length

/-- Go `m[k]` as an expression: the zero value when the key is absent or the map is nil. -/
def CallMap.get (m : CallMap) (k : String) : Call :=
  (m.entries.lookup k).getD Call.zero

/-- Whether `k` is a key of the map. -/
def CallMap.contains (m : CallMap) (k : String) : Bool :=
  (m.entries.lookup k).isSome

/-- Store `v` under `k` in a list of pairs: replace the pair of `k`, or add one. -/
def setEntry : List (String × Call) → String → Call → List (String × Call)
  | [], k, v => [(k, v)]
  | (k', v') :: rest, k, v =>
    if k' = k then (k, v) :: rest else (k', v') :: setEntry rest k v

/-- Go `m[k] = v`: panics on the nil map. -/
def CallMap.set (m : CallMap) (k : String) (v : Call) : Except String CallMap :=
  match m with
  | .nil => .error "assignment to entry in nil map"
  | .mk es => .ok (.mk (setEntry es k v))

/-- The struct `Run`. -/
structure Run where
  Calls : CallMap
  Output : String
  Input : String
  Error : String
  Start : time.Time
  End : time.Time
  State : gptscript.RunState
deriving DecidableEq, Repr

/-- The zero value of `Run`: nil map, empty strings, zero times, empty state. -/
def Run.zero : Run :=
  { Calls := .nil, Output := "", Input := "", Error := "", Start := 0, End := 0, State := "" }

/-- The struct `Model`. -/
structure Model where
  History : List Run
  Run : Run
  ChatState : String
  ToolPath : String
  Opt : gptscript.Opts
deriving DecidableEq, Repr

/-- The struct `Event`, the envelope handed to `Update`; pointers are options and an
error is its text. -/
structure Event where
  Run : Option gptscript.Run
  Event : Option gptscript.Event
  Err : Option String
  Output : String
deriving DecidableEq, Repr

/-- `Event.next`: receive from the run's event channel; an event is stored in `Event`;
on a closed channel `Text()` is called, its error (if any) stored in `Err`, its text in
`Output`, and `Event` cleared. A nil `Run` is a nil dereference. -/
def Event.next (r : chat.Event) : Except String chat.Event :=
  match r.Run with
  | none => .error "invalid memory address or nil pointer dereference"
  | some run =>
    match run.events with
    | event :: rest =>
      .ok { r with Run := some { run with events := rest }, Event := some event }
    | [] =>
      let r1 : chat.Event :=
        match run.textErr with
        | some err => { r with Err := some err }
        | none => r
      .ok { r1 with Output := run.text, Event := none }

/-- A `tea.Cmd` built by this package: the two closures of `Submit` and the method
value `event.next` returned by `Update`. -/
inductive Cmd where
  | busy : Cmd
  | start (client : gptscript.Client) (input : String) : Cmd
  | resume (event : Event) : Cmd

/-- `Model.next`: archive the active run when it has calls, install a fresh run, start
the engine run and fetch the first envelope. -/
def Model.next (r : Model) (client : gptscript.Client) (input : String) (now : time.Time) :
    Except String (Model × Event) :=
  let opts : gptscript.Opts :=
    { r.Opt with IncludeEvents := true, ChatState := r.ChatState, Input := input }
  let r1 : Model :=
    if r.Run.Calls.len ≠ 0 then { r with History := r.History ++ [r.Run] } else r
  let r2 : Model :=
    { r1 with Run := { Calls := .mk [], Output := "", Input := input, Error := "",
                       Start := now, End := 0, State := Creating } }
  match client.Run r.ToolPath opts with
  | .error err => .ok (r2, { Run := none, Event := none, Err := some err, Output := "" })
  | .ok run =>
    match Event.next { Run := some run, Event := none, Err := none, Output := "" } with
    | .error p => .error p
    | .ok event => .ok (r2, event)

/-- `Model.Submit`: the busy closure when the active run is not terminal, else the closure
that calls `next`. -/
def Model.Submit (r : Model) (run : gptscript.Client) (input : String) : Cmd :=
  if !IsTerminal r.Run.State then Cmd.busy else Cmd.start run input

/-- Run a command against the session as it is now: the result is the session after the
closure ran and the envelope it returned. -/
def Cmd.run (c : Cmd) (r : Model) (now : time.Time) : Except String (Model × Event) :=
  match c with
  | .busy => .ok (r, { Run := none, Event := none, Err := some "run already running", Output := "" })
  | .start client input => r.next client input now
  | .resume event =>
    match event.next with
    | .error p => .error p
    | .ok e => .ok (r, e)

/-- `Model.process`: fold one engine event into the calls of the active run. -/
def Model.process (r : Model) (event : gptscript.Event) : Except String Model :=
  match event.CallContext with
  | none => .ok r
  | some cc =>
    if cc.ID = "" then .ok r
    else
      let call0 : Call := r.Run.Calls.get cc.ID
      let call1 : Call := { call0 with CallContext := cc }
      let step : Call × Model :=
        if event.Typ = EventTypeCallStart then
          ({ call1 with Start := event.Time, Input := event.Content }, r)
        else if event.Typ = EventTypeCallProgress then
          let call2 : Call := { call1 with Output := event.Content }
          if call2.CallContext.ParentID = "" then
            (call2, { r with Run := { r.Run with Output := call2.Output } })
          else (call2, r)
        else if event.Typ = EventTypeCallFinish then
          ({ call1 with End := event.Time, Output := event.Content }, r)
        else (call1, r)
      match step.2.Run.Calls.set cc.ID step.1 with
      | .error p => .error p
      | .ok calls => .ok { step.2 with Run := { step.2.Run with Calls := calls } }

/-- Lines 96-110 of `Update`: fold the engine run of a terminal-run envelope. -/
def Model.foldRun (r : Model) (event : Event) : Except String Model :=
  match event.Run with
  | none => .ok r
  | some run =>
    let r1 : Model := { r with Run := { r.Run with Output := event.Output, State := run.state } }
    if r1.Run.State = Continue then .ok { r1 with ChatState := run.chatState }
    else if r1.Run.State = Finished then .ok { r1 with ChatState := run.chatState }
    else if r1.Run.State = Error then
      .ok { r1 with Run := { r1.Run with Error := run.errorOutput } }
    else .error ("invalid state " ++ run.state)

/-- Lines 112-115 of `Update`: the error check after the run has been folded. -/
def Model.lateErr (r : Model) (event : Event) : Model :=
  match event.Err with
  | some err =>
    if r.Run.Error = "" then { r with Run := { r.Run with Error := err, State := Error } }
    else r
  | none => r

/-- Lines 117-119 of `Update`: set `End` when it is still zero. -/
def Model.stampEnd (r : Model) (now : time.Time) : Model :=
  if time.IsZero r.Run.End then { r with Run := { r.Run with End := now } } else r

/-- `Model.Update`: fold one envelope into the session and return the next command. -/
def Model.Update (r : Model) (event : Event) (now : time.Time) :
    Except String (Model × Option Cmd) :=
  match event.Err with
  | some err =>
    .ok ({ r with Run := { r.Run with Error := err, State := Error } }, none)
  | none =>
    match event.Event with
    | some e =>
      match r.process e with
      | .error p => .error p
      | .ok r1 => .ok (r1, some (Cmd.resume event))
    | none =>
      match r.foldRun event with
      | .error p => .error p
      | .ok r1 => .ok ((r1.lateErr event).stampEnd now, none)

/-! ## Concrete inputs, action sequences and predicates used in the statements -/

/-- A client whose `Run` gives the same result for every tool path and options. -/
def constClient (res : Except String gptscript.Run) : gptscript.Client :=
  { Run := fun _ _ => res }

/-- The fresh run that `Model.next` installs. -/
def Run.fresh (input : String) (now : time.Time) : Run :=
  { Calls := .mk [], Output := "", Input := input, Error := "",
    Start := now, End := 0, State := Creating }

/-- The envelope of the busy closure of `Submit`. -/
def Event.busy : chat.Event :=
  { Run := none, Event := none, Err := some "run already running", Output := "" }

/-- A session whose active run is still being created, used as a concrete input. -/
def sampleBusy : Model :=
  { History := [], Run := Run.fresh "first" 3, ChatState := "", ToolPath := "tool.gpt",
    Opt := { IncludeEvents := false, ChatState := "", Input := "" } }

/-- A finished session with one recorded call, used as a concrete input. -/
def sampleDone : Model :=
  { History := [],
    Run := { Calls := .mk [("A", { Call.zero with Output := "a.txt" })], Output := "a.txt",
             Input := "first", Error := "", Start := 3, End := 4, State := Finished },
    ChatState := "s1", ToolPath := "tool.gpt",
    Opt := { IncludeEvents := false, ChatState := "", Input := "" } }

/-- The zero value of `Model` with the given configuration: nothing has run yet. -/
def Model.unstarted (toolPath : String) (opt : gptscript.Opts) : Model :=
  { History := [], Run := Run.zero, ChatState := "", ToolPath := toolPath, Opt := opt }

/-- An engine run handle whose event channel is closed and that reports `Finished`. -/
def sampleHandle : gptscript.Run :=
  { events := [], text := "a.txt", textErr := none, state := Finished,
    chatState := "s2", errorOutput := "" }

/-- The terminal-run envelope of `sampleHandle`. -/
def sampleTerminal : chat.Event :=
  { Run := some sampleHandle, Event := none, Err := none, Output := "a.txt" }

/-- A session whose active run was marked failed by a rejected `Submit` while the engine
run was still going: error text "run already running", status `Error`. -/
def sampleRejected : Model :=
  { History := [],
    Run := { Calls := .mk [], Output := "", Input := "first", Error := "run already running",
             Start := 3, End := 0, State := Error },
    ChatState := "", ToolPath := "tool.gpt",
    Opt := { IncludeEvents := false, ChatState := "", Input := "" } }

/-- An engine run handle whose event channel is closed and that reports `Error`. -/
def failedHandle : gptscript.Run :=
  { events := [], text := "", textErr := none, state := Error,
    chatState := "", errorOutput := "tool failed" }

/-- The terminal-run envelope of `failedHandle`. -/
def failedTerminal : chat.Event :=
  { Run := some failedHandle, Event := none, Err := none, Output := "" }

/-- The error envelope of a failed engine start. -/
def startFailure : chat.Event :=
  { Run := none, Event := none, Err := some "engine unreachable", Output := "" }

/-- The inputs on which `Update` panics: a progress event with a non-empty call identifier
folded into a nil calls map, or a terminal-run envelope whose engine state is not one of
`Continue`, `Finished`, `Error`; in both the envelope carries no error. -/
def Model.updatePanics (r : Model) (event : chat.Event) : Prop :=
  event.Err = none ∧
  ((∃ e cc, event.Event = some e ∧ e.CallContext = some cc ∧ cc.ID ≠ "" ∧
      r.Run.Calls = .nil) ∨
   (event.Event = none ∧ ∃ run, event.Run = some run ∧ IsTerminal run.state = false))

/-- A progress-event envelope on the cursor of `sampleHandle`. -/
def sampleProgress : chat.Event :=
  { Run := some sampleHandle,
    Event := some { Time := 6, CallContext := some { ID := "A", ParentID := "", Display := "ls" },
                    Typ := EventTypeCallProgress, Content := "a.txt" },
    Err := none, Output := "" }

/-- One thing the caller does to a session: call `Submit` and run the step it returns, run
a step obtained earlier (from `Submit` or `Update`), or call `Update` on an envelope. -/
inductive Action where
  | submit (client : gptscript.Client) (input : String) (now : time.Time) : Action
  | exec (c : Cmd) (now : time.Time) : Action
  | update (event : chat.Event) (now : time.Time) : Action

/-- The session after one action; a panic ends the program. -/
def Model.act (r : Model) : Action → Except String Model
  | .submit client input now =>
    match (r.Submit client input).run r now with
    | .error p => .error p
    | .ok (r', _) => .ok r'
  | .exec c now =>
    match c.run r now with
    | .error p => .error p
    | .ok (r', _) => .ok r'
  | .update event now =>
    match r.Update event now with
    | .error p => .error p
    | .ok (r', _) => .ok r'

/-- The session after a sequence of actions, performed in order. -/
def Model.acts (r : Model) : List Action → Except String Model
  | [] => .ok r
  | a :: rest =>
    match r.act a with
    | .error p => .error p
    | .ok r' => r'.acts rest

/-- Every run in the history has at least one call. -/
def Model.historyHasCalls (r : Model) : Prop :=
  ∀ run ∈ r.History, run.Calls.len ≠ 0

/-- A sequence of actions on `sampleDone`: a `Submit` whose engine start fails, the fold
of its error envelope, a `Submit` that starts `sampleHandle`, the fold of its terminal-run
envelope. -/
def sampleActions : List Action :=
  [ .submit (constClient (.error "engine unreachable")) "second" 5,
    .update startFailure 6,
    .submit (constClient (.ok sampleHandle)) "third" 7,
    .update sampleTerminal 8 ]

/-- An engine run handle that still has two events to deliver. -/
def streamHandle : gptscript.Run :=
  { events :=
      [ { Time := 5, CallContext := some { ID := "A", ParentID := "", Display := "ls" },
          Typ := EventTypeCallStart, Content := "list files" },
        { Time := 6, CallContext := some { ID := "A", ParentID := "", Display := "ls" },
          Typ := EventTypeCallProgress, Content := "a.txt" } ],
    text := "a.txt", textErr := none, state := Finished, chatState := "s2",
    errorOutput := "" }

/-- `Update` with the error check of lines 112-115 (the one placed after the
progress-event and terminal-run handling) removed; everything else as in `Update`. -/
def Model.UpdateNoLateErr (r : Model) (event : chat.Event) (now : time.Time) :
    Except String (Model × Option Cmd) :=
  match event.Err with
  | some err =>
    .ok ({ r with Run := { r.Run with Error := err, State := Error } }, none)
  | none =>
    match event.Event with
    | some e =>
      match r.process e with
      | .error p => .error p
      | .ok r1 => .ok (r1, some (Cmd.resume event))
    | none =>
      match r.foldRun event with
      | .error p => .error p
      | .ok r1 => .ok (r1.stampEnd now, none)

/-- Fold a list of engine events into the session with `process`, first event first. -/
def Model.processAll (r : Model) : List gptscript.Event → Except String Model
  | [] => .ok r
  | e :: rest =>
    match r.process e with
    | .error p => .error p
    | .ok r1 => r1.processAll rest

/-- The caller's loop on one envelope: call `Update`; when it returns a step, run the
step and go on with the envelope it gives; stop when `Update` returns nothing. `k` is the
number of `Update` calls made before, `clock k` the time of call number `k`. The result
is the final session and the number of `Update` calls made in all. -/
def Model.drive (clock : Nat → time.Time) :
    Nat → Nat → Model → chat.Event → Except String (Model × Nat)
  | 0, _, _, _ => .error "out of fuel"
  | fuel + 1, k, r, event =>
    match r.Update event (clock k) with
    | .error p => .error p
    | .ok (r1, none) => .ok (r1, k + 1)
    | .ok (r1, some c) =>
      match c.run r1 (clock k) with
      | .error p => .error p
      | .ok (r2, event2) => Model.drive clock fuel (k + 1) r2 event2

/-- The whole turn: call `Submit`, run its step at time `now`, then drive the loop. -/
def Model.submitAndDrive (r : Model) (client : gptscript.Client) (input : String)
    (now : time.Time) (clock : Nat → time.Time) (fuel : Nat) : Except String (Model × Nat) :=
  match (r.Submit client input).run r now with
  | .error p => .error p
  | .ok (r1, event) => Model.drive clock fuel 0 r1 event

/-- The call context of the root call `A`. -/
def ctxA : gptscript.CallContext := { ID := "A", ParentID := "", Display := "ls" }

/-- A call-start event of the root call `A`. -/
def startA : gptscript.Event :=
  { Time := 5, CallContext := some ctxA, Typ := EventTypeCallStart, Content := "list files" }

/-- A call-progress event of the root call `A`. -/
def progressA : gptscript.Event :=
  { Time := 6, CallContext := some ctxA, Typ := EventTypeCallProgress, Content := "a.txt" }

/-- A call-finish event of the root call `A`. -/
def finishA : gptscript.Event :=
  { Time := 7, CallContext := some ctxA, Typ := EventTypeCallFinish,
    Content := "a.txt\nb.txt" }

/-- A call-progress event without a call context. -/
def progressAnonymous : gptscript.Event :=
  { Time := 6, CallContext := none, Typ := EventTypeCallProgress, Content := "a.txt" }

/-- The session right after the `next` closure of `Submit` has run: the old active run
archived when it has calls, and the fresh run installed. -/
def Model.started (r : Model) (input : String) (now : time.Time) : Model :=
  { (if r.Run.Calls.len ≠ 0 then ({ r with History := r.History ++ [r.Run] } : Model)
      else r) with
    Run := { Calls := .mk [], Output := "", Input := input, Error := "",
             Start := now, End := 0, State := Creating } }

/-- An engine run that delivers a call-start and a call-finish event of the root call `A`
and then closes with the text "a.txt\nb.txt" in state `Finished`. -/
def listHandle : gptscript.Run :=
  { events := [startA, finishA], text := "a.txt\nb.txt", textErr := none,
    state := Finished, chatState := "s2", errorOutput := "" }

/-- A clock for the `Update` calls of a turn: call number `k` happens at time `k + 10`. -/
def sampleClock (k : Nat) : time.Time := k + 10

/-- An engine run handle whose event channel is closed and whose final-text retrieval
fails. -/
def brokenHandle : gptscript.Run :=
  { events := [], text := "", textErr := some "text failed", state := Error,
    chatState := "", errorOutput := "tool failed" }

/-- A cursor on `brokenHandle`, as left by the last progress event. -/
def brokenCursor : chat.Event :=
  { Run := some brokenHandle, Event := some progressA, Err := none, Output := "" }

end chat

namespace chat

open gptscript

/-! ## Lemmas about the embedding -/

theorem error_ne_continue : (Error : RunState) ≠ Continue := by decide

theorem error_ne_finished : (Error : RunState) ≠ Finished := by decide

theorem finished_ne_continue : (Finished : RunState) ≠ Continue := by decide

theorem isTerminal_iff (rs : RunState) :
    IsTerminal rs = true ↔ rs = Continue ∨ rs = Finished ∨ rs = Error := by
  simp [IsTerminal, or_assoc]

/-- What `process` keeps: everything but the calls and the output of the active run. -/
theorem process_frame (r r' : Model) (e : gptscript.Event) (h : r.process e = .ok r') :
    r'.History = r.History ∧ r'.ChatState = r.ChatState ∧ r'.ToolPath = r.ToolPath ∧
    r'.Opt = r.Opt ∧ r'.Run.Input = r.Run.Input ∧ r'.Run.Error = r.Run.Error ∧
    r'.Run.Start = r.Run.Start ∧ r'.Run.End = r.Run.End ∧ r'.Run.State = r.Run.State := by
  unfold Model.process at h
  cases hcc : e.CallContext with
  | none =>
    simp only [hcc] at h
    cases h
    simp
  | some cc =>
    simp only [hcc] at h
    by_cases hid : cc.ID = ""
    · simp only [hid, if_true] at h
      cases h
      simp
    · simp only [hid, if_false] at h
      cases hm : r.Run.Calls with
      | nil =>
        exfalso
        split at h
        · cases h
        · rename_i calls hset
          split_ifs at hset <;> simp [CallMap.set, hm] at hset
      | mk es =>
        split at h
        · cases h
        · cases h
          split_ifs <;> simp

/-- When `process` panics: only a non-empty call identifier on a nil calls map. -/
theorem process_panics (r : Model) (e : gptscript.Event) (p : String)
    (h : r.process e = .error p) :
    ∃ cc, e.CallContext = some cc ∧ cc.ID ≠ "" ∧ r.Run.Calls = .nil := by
  unfold Model.process at h
  cases hcc : e.CallContext with
  | none =>
    simp only [hcc] at h
    cases h
  | some cc =>
    simp only [hcc] at h
    by_cases hid : cc.ID = ""
    · simp only [hid, if_true] at h
      cases h
    · refine ⟨cc, rfl, hid, ?_⟩
      simp only [hid, if_false] at h
      cases hm : r.Run.Calls with
      | nil => rfl
      | mk es =>
        exfalso
        split at h
        · rename_i q hset
          split_ifs at hset <;> simp [CallMap.set, hm] at hset
        · cases h

/-- What `foldRun` keeps: everything but the output, status and error text of the active
run and the continuation state; the status afterwards is the old one (no run in the
envelope) or a terminal one. -/
theorem foldRun_frame (r r' : Model) (ev : chat.Event) (h : r.foldRun ev = .ok r') :
    r'.History = r.History ∧ r'.ToolPath = r.ToolPath ∧ r'.Opt = r.Opt ∧
    r'.Run.Calls = r.Run.Calls ∧ r'.Run.Input = r.Run.Input ∧
    r'.Run.Start = r.Run.Start ∧ r'.Run.End = r.Run.End ∧
    (r'.Run.State = r.Run.State ∨ IsTerminal r'.Run.State = true) := by
  unfold Model.foldRun at h
  cases hr : ev.Run with
  | none =>
    simp only [hr] at h
    cases h
    simp
  | some run =>
    simp only [hr] at h
    split_ifs at h with h1 h2 h3
    · cases h
      simp [isTerminal_iff, h1]
    · cases h
      simp [isTerminal_iff, h2]
    · cases h
      simp [isTerminal_iff, h3]

/-- When `foldRun` panics: only an engine state outside `Continue`, `Finished`, `Error`. -/
theorem foldRun_panics (r : Model) (ev : chat.Event) (p : String)
    (h : r.foldRun ev = .error p) :
    ∃ run, ev.Run = some run ∧ IsTerminal run.state = false := by
  unfold Model.foldRun at h
  cases hr : ev.Run with
  | none =>
    simp only [hr] at h
    cases h
  | some run =>
    refine ⟨run, rfl, ?_⟩
    simp only [hr] at h
    split_ifs at h with h1 h2 h3
    have hn : ¬ (IsTerminal run.state = true) := by
      rw [isTerminal_iff]
      simp at h1 h2 h3
      simp [h1, h2, h3]
    simpa using hn

theorem update_of_err (r : Model) (ev : chat.Event) (now : time.Time) (err : String)
    (hErr : ev.Err = some err) :
    r.Update ev now =
      .ok ({ r with Run := { r.Run with Error := err, State := Error } }, none) := by
  simp only [Model.Update, hErr]

theorem update_of_event_ok (r r1 : Model) (ev : chat.Event) (now : time.Time)
    (e : gptscript.Event) (hErr : ev.Err = none) (hEv : ev.Event = some e)
    (hp : r.process e = .ok r1) :
    r.Update ev now = .ok (r1, some (Cmd.resume ev)) := by
  simp only [Model.Update, hErr, hEv, hp]

theorem update_of_event_panic (r : Model) (ev : chat.Event) (now : time.Time)
    (e : gptscript.Event) (p : String) (hErr : ev.Err = none) (hEv : ev.Event = some e)
    (hp : r.process e = .error p) :
    r.Update ev now = .error p := by
  simp only [Model.Update, hErr, hEv, hp]

theorem update_of_run_ok (r r1 : Model) (ev : chat.Event) (now : time.Time)
    (hErr : ev.Err = none) (hEv : ev.Event = none) (hf : r.foldRun ev = .ok r1) :
    r.Update ev now = .ok ((r1.lateErr ev).stampEnd now, none) := by
  simp only [Model.Update, hErr, hEv, hf]

theorem update_of_run_panic (r : Model) (ev : chat.Event) (now : time.Time) (p : String)
    (hErr : ev.Err = none) (hEv : ev.Event = none) (hf : r.foldRun ev = .error p) :
    r.Update ev now = .error p := by
  simp only [Model.Update, hErr, hEv, hf]

/-- The status and end of the active run after `lateErr` and `stampEnd` when the envelope
carries no error. -/
theorem lateErr_stampEnd (r : Model) (ev : chat.Event) (now : time.Time)
    (hErr : ev.Err = none) :
    ((r.lateErr ev).stampEnd now).Run.State = r.Run.State ∧
    ((r.lateErr ev).stampEnd now).History = r.History ∧
    ((r.lateErr ev).stampEnd now).Run.Calls = r.Run.Calls ∧
    ((r.lateErr ev).stampEnd now).Run.End =
      (if time.IsZero r.Run.End then now else r.Run.End) := by
  simp only [Model.lateErr, hErr, Model.stampEnd]
  split <;> simp

theorem run_history (c : Cmd) (r r' : Model) (ev : chat.Event) (now : time.Time)
    (h : c.run r now = .ok (r', ev)) :
    r'.History = r.History ∨ (r'.History = r.History ++ [r.Run] ∧ r.Run.Calls.len ≠ 0) := by
  cases c with
  | busy =>
    simp only [Cmd.run, Except.ok.injEq, Prod.mk.injEq] at h
    rw [← h.1]
    exact Or.inl rfl
  | resume event =>
    simp only [Cmd.run] at h
    split at h
    · cases h
    · simp only [Except.ok.injEq, Prod.mk.injEq] at h
      rw [← h.1]
      exact Or.inl rfl
  | start client input =>
    simp only [Cmd.run, Model.next] at h
    have key : ∀ r2 : Model, r2.History = (if r.Run.Calls.len ≠ 0 then
        ({ r with History := r.History ++ [r.Run] } : Model) else r).History →
        r2.History = r.History ∨
          (r2.History = r.History ++ [r.Run] ∧ r.Run.Calls.len ≠ 0) := by
      intro r2 h2
      by_cases hl : r.Run.Calls.len = 0
      · left
        simpa [hl] using h2
      · right
        exact ⟨by simpa [hl] using h2, hl⟩
    split at h
    · simp only [Except.ok.injEq, Prod.mk.injEq] at h
      exact key r' (by rw [← h.1])
    · split at h
      · cases h
      · simp only [Except.ok.injEq, Prod.mk.injEq] at h
        exact key r' (by rw [← h.1])

theorem update_history (r r' : Model) (ev : chat.Event) (now : time.Time) (c : Option Cmd)
    (h : r.Update ev now = .ok (r', c)) : r'.History = r.History := by
  cases hErr : ev.Err with
  | some err =>
    rw [update_of_err r ev now err hErr] at h
    simp only [Except.ok.injEq, Prod.mk.injEq] at h
    rw [← h.1]
  | none =>
    cases hEv : ev.Event with
    | some e =>
      cases hp : r.process e with
      | error p =>
        rw [update_of_event_panic r ev now e p hErr hEv hp] at h
        cases h
      | ok r1 =>
        rw [update_of_event_ok r r1 ev now e hErr hEv hp] at h
        simp only [Except.ok.injEq, Prod.mk.injEq] at h
        rw [← h.1]
        exact (process_frame r r1 e hp).1
    | none =>
      cases hf : r.foldRun ev with
      | error p =>
        rw [update_of_run_panic r ev now p hErr hEv hf] at h
        cases h
      | ok r1 =>
        rw [update_of_run_ok r r1 ev now hErr hEv hf] at h
        simp only [Except.ok.injEq, Prod.mk.injEq] at h
        rw [← h.1, (lateErr_stampEnd r1 ev now hErr).2.1]
        exact (foldRun_frame r r1 ev hf).1

theorem historyHasCalls_of_run (c : Cmd) (r r' : Model) (ev : chat.Event) (now : time.Time)
    (hi : r.historyHasCalls) (h : c.run r now = .ok (r', ev)) : r'.historyHasCalls := by
  intro run hmem
  rcases run_history c r r' ev now h with hh | ⟨hh, hl⟩
  · rw [hh] at hmem
    exact hi run hmem
  · rw [hh, List.mem_append, List.mem_singleton] at hmem
    rcases hmem with hmem | hmem
    · exact hi run hmem
    · rw [hmem]
      exact hl

theorem historyHasCalls_of_act (r r' : Model) (a : Action)
    (hi : r.historyHasCalls) (h : r.act a = .ok r') : r'.historyHasCalls := by
  cases a with
  | submit client input now =>
    simp only [Model.act] at h
    split at h
    · cases h
    · rename_i r1 ev hrun
      cases h
      exact historyHasCalls_of_run _ r r' ev now hi hrun
  | exec c now =>
    simp only [Model.act] at h
    split at h
    · cases h
    · rename_i r1 ev hrun
      cases h
      exact historyHasCalls_of_run c r r' ev now hi hrun
  | update event now =>
    simp only [Model.act] at h
    split at h
    · cases h
    · rename_i r1 c hup
      cases h
      intro run hmem
      rw [update_history r r' event now c hup] at hmem
      exact hi run hmem

theorem historyHasCalls_of_acts (as : List Action) :
    ∀ r r' : Model, r.historyHasCalls → r.acts as = .ok r' → r'.historyHasCalls := by
  induction as with
  | nil =>
    intro r r' hi h
    simp only [Model.acts, Except.ok.injEq] at h
    rw [← h]
    exact hi
  | cons a rest ih =>
    intro r r' hi h
    simp only [Model.acts] at h
    split at h
    · cases h
    · rename_i r1 hact
      exact ih r1 r' (historyHasCalls_of_act r r1 a hi hact) h

theorem lookup_setEntry_self (es : List (String × Call)) (k : String) (v : Call) :
    (setEntry es k v).lookup k = some v := by
  induction es with
  | nil => simp [setEntry]
  | cons hd tl ih =>
    obtain ⟨k', v'⟩ := hd
    by_cases hk : k' = k
    · simp [setEntry, hk]
    · have hb : (k == k') = false := by
        simpa using fun h => hk h.symm
      simp [setEntry, hk, List.lookup_cons, hb, ih]

theorem lookup_setEntry_other (es : List (String × Call)) (k k2 : String) (v : Call)
    (h : k2 ≠ k) : (setEntry es k v).lookup k2 = es.lookup k2 := by
  induction es with
  | nil =>
    have hb : (k2 == k) = false := by simpa using h
    simp [setEntry, List.lookup_cons, hb]
  | cons hd tl ih =>
    obtain ⟨k', v'⟩ := hd
    by_cases hk : k' = k
    · have hb : (k2 == k) = false := by simpa using h
      have hb' : (k2 == k') = false := by rw [hk]; exact hb
      simp [setEntry, hk, List.lookup_cons, hb]
    · simp [setEntry, hk, List.lookup_cons, ih]

theorem start_ne_progress : (EventTypeCallStart : EventType) ≠ EventTypeCallProgress := by
  decide

theorem finish_ne_start : (EventTypeCallFinish : EventType) ≠ EventTypeCallStart := by
  decide

theorem finish_ne_progress : (EventTypeCallFinish : EventType) ≠ EventTypeCallProgress := by
  decide

/-- The result of `process` on an initialised calls map, written out. -/
theorem process_of_mk (r : Model) (es : List (String × Call)) (e : gptscript.Event)
    (cc : gptscript.CallContext) (hm : r.Run.Calls = .mk es)
    (hcc : e.CallContext = some cc) (hid : cc.ID ≠ "") :
    r.process e = .ok { r with Run := { r.Run with
      Output := (if e.Typ = EventTypeCallProgress ∧ cc.ParentID = "" then e.Content
                 else r.Run.Output),
      Calls := .mk (setEntry es cc.ID
        (if e.Typ = EventTypeCallStart then
          { r.Run.Calls.get cc.ID with CallContext := cc, Start := e.Time, Input := e.Content }
         else if e.Typ = EventTypeCallProgress then
          { r.Run.Calls.get cc.ID with CallContext := cc, Output := e.Content }
         else if e.Typ = EventTypeCallFinish then
          { r.Run.Calls.get cc.ID with CallContext := cc, End := e.Time, Output := e.Content }
         else { r.Run.Calls.get cc.ID with CallContext := cc })) } } := by
  unfold Model.process
  simp only [hcc, hid, if_false]
  by_cases h1 : e.Typ = EventTypeCallStart
  · simp [h1, hm, CallMap.set, start_ne_progress]
  · by_cases h2 : e.Typ = EventTypeCallProgress
    · by_cases hp : cc.ParentID = "" <;>
        simp [h2, hp, hm, CallMap.set, start_ne_progress.symm]
    · by_cases h3 : e.Typ = EventTypeCallFinish
      · simp [h3, hm, CallMap.set, finish_ne_start, finish_ne_progress]
      · simp [h1, h2, h3, hm, CallMap.set]

theorem process_of_nil (r : Model) (e : gptscript.Event) (cc : gptscript.CallContext)
    (hm : r.Run.Calls = .nil) (hcc : e.CallContext = some cc) (hid : cc.ID ≠ "") :
    r.process e = .error "assignment to entry in nil map" := by
  cases hp : r.process e with
  | error p =>
    unfold Model.process at hp
    simp only [hcc, hid, if_false] at hp
    split at hp
    · rename_i q hset
      split_ifs at hset <;> simp [CallMap.set, hm] at hset <;> rw [← hp, ← hset]
    · cases hp
  | ok r1 =>
    exfalso
    unfold Model.process at hp
    simp only [hcc, hid, if_false] at hp
    split at hp
    · cases hp
    · rename_i calls hset
      split_ifs at hset <;> simp [CallMap.set, hm] at hset

theorem calls_nil_or_mk (m : CallMap) : (∃ es, m = .mk es) ∨ m = .nil := by
  cases m with
  | nil => exact Or.inr rfl
  | mk es => exact Or.inl ⟨es, rfl⟩

theorem get_mk_setEntry_self (es : List (String × Call)) (k : String) (v : Call) :
    (CallMap.mk (setEntry es k v)).get k = v := by
  simp [CallMap.get, CallMap.entries, lookup_setEntry_self]

theorem contains_mk_setEntry_self (es : List (String × Call)) (k : String) (v : Call) :
    (CallMap.mk (setEntry es k v)).contains k = true := by
  simp [CallMap.contains, CallMap.entries, lookup_setEntry_self]

/-- The session after the `next` closure of `Submit` has run. -/
theorem submit_start_result (r : Model) (client : gptscript.Client) (input : String)
    (now : time.Time) :
    ∃ r' ev, (Cmd.start client input).run r now = .ok (r', ev) ∧
      r'.History = (if r.Run.Calls.len ≠ 0 then r.History ++ [r.Run] else r.History) ∧
      r'.Run = { Calls := .mk [], Output := "", Input := input, Error := "",
                 Start := now, End := 0, State := Creating } ∧
      r'.ChatState = r.ChatState ∧ r'.ToolPath = r.ToolPath ∧ r'.Opt = r.Opt := by
  simp only [Cmd.run, Model.next]
  cases hc : client.Run r.ToolPath
      { r.Opt with IncludeEvents := true, ChatState := r.ChatState, Input := input } with
  | error err =>
    refine ⟨_, _, rfl, ?_⟩
    by_cases hl : r.Run.Calls.len = 0 <;> simp [hl]
  | ok run =>
    cases he : run.events with
    | nil =>
      simp only [Event.next, he]
      refine ⟨_, _, rfl, ?_⟩
      by_cases hl : r.Run.Calls.len = 0 <;> simp [hl]
    | cons e rest =>
      simp only [Event.next, he]
      refine ⟨_, _, rfl, ?_⟩
      by_cases hl : r.Run.Calls.len = 0 <;> simp [hl]

/-- On an initialised calls map `process` returns, and the map stays initialised. -/
theorem process_ok_of_mk (r : Model) (e : gptscript.Event)
    (hm : ∃ cs, r.Run.Calls = .mk cs) :
    ∃ r1, r.process e = .ok r1 ∧ ∃ cs, r1.Run.Calls = .mk cs := by
  obtain ⟨cs, hcs⟩ := hm
  cases hcc : e.CallContext with
  | none =>
    refine ⟨r, ?_, cs, hcs⟩
    simp only [Model.process, hcc]
  | some cc =>
    by_cases hid : cc.ID = ""
    · refine ⟨r, ?_, cs, hcs⟩
      simp only [Model.process, hcc, hid, if_true]
    · exact ⟨_, process_of_mk r cs e cc hcs hcc hid, _, rfl⟩

/-- The fold of a terminal-run envelope whose engine state is `Continue` or `Finished`. -/
theorem foldRun_of_accepted (r : Model) (ev : chat.Event) (run : gptscript.Run)
    (hRun : ev.Run = some run) (hs : run.state = Continue ∨ run.state = Finished) :
    r.foldRun ev = .ok { r with
      Run := { r.Run with Output := ev.Output, State := run.state },
      ChatState := run.chatState } := by
  rcases hs with hs | hs <;> simp [Model.foldRun, hRun, hs, finished_ne_continue]

theorem lateErr_of_no_err (r : Model) (ev : chat.Event) (hErr : ev.Err = none) :
    r.lateErr ev = r := by
  simp only [Model.lateErr, hErr]

/-- One round of the caller's loop. -/
theorem drive_succ (clock : Nat → time.Time) (fuel k : Nat) (r : Model) (ev : chat.Event) :
    Model.drive clock (fuel + 1) k r ev =
      match r.Update ev (clock k) with
      | .error p => .error p
      | .ok (r1, none) => .ok (r1, k + 1)
      | .ok (r1, some c) =>
        match c.run r1 (clock k) with
        | .error p => .error p
        | .ok (r2, event2) => Model.drive clock fuel (k + 1) r2 event2 := rfl

/-- The loop on the envelope of a cursor: the events still on the stream are folded in
order, then the terminal-run envelope is folded; one `Update` call per envelope. -/
theorem drive_cursor (clock : Nat → time.Time) (es : List gptscript.Event) :
    ∀ (extra k : Nat) (r : Model) (cur : chat.Event) (run : gptscript.Run),
      cur.Run = some run → cur.Err = none → run.events = es → run.textErr = none →
      (run.state = Continue ∨ run.state = Finished) →
      (∃ cs, r.Run.Calls = .mk cs) →
      ∃ env folded, cur.next = .ok env ∧ r.processAll es = .ok folded ∧
        Model.drive clock (extra + es.length + 1) k r env =
          .ok ((({ folded with
                    Run := { folded.Run with Output := run.text, State := run.state },
                    ChatState := run.chatState } : Model).stampEnd (clock (k + es.length))),
               k + es.length + 1) := by
  induction es with
  | nil =>
    intro extra k r cur run hRun hErr hev htx hs hm
    have hn : cur.next = .ok { cur with Output := run.text, Event := none } := by
      simp only [Event.next, hRun, hev, htx]
    refine ⟨_, r, hn, rfl, ?_⟩
    have hf := foldRun_of_accepted r { cur with Output := run.text, Event := none } run
      hRun hs
    have hu := update_of_run_ok r _ { cur with Output := run.text, Event := none }
      (clock k) hErr rfl hf
    rw [lateErr_of_no_err _ { cur with Output := run.text, Event := none } hErr] at hu
    rw [drive_succ, hu]
    rfl
  | cons e rest ih =>
    intro extra k r cur run hRun hErr hev htx hs hm
    have hn : cur.next =
        .ok { cur with Run := some { run with events := rest }, Event := some e } := by
      simp only [Event.next, hRun, hev]
    obtain ⟨r1, hp, hm1⟩ := process_ok_of_mk r e hm
    obtain ⟨env2, folded, hn2, hfold, hd⟩ := ih extra (k + 1) r1
      { cur with Run := some { run with events := rest }, Event := some e }
      { run with events := rest } rfl hErr rfl htx hs hm1
    refine ⟨_, folded, hn, ?_, ?_⟩
    · simp only [Model.processAll, hp, hfold]
    · have hu := update_of_event_ok r r1
        { cur with Run := some { run with events := rest }, Event := some e }
        (clock k) e hErr rfl hp
      have hfuel : extra + (e :: rest).length + 1 = (extra + rest.length + 1) + 1 := by
        simp only [List.length_cons]
        omega
      have hk : k + 1 + rest.length = k + (e :: rest).length := by
        simp only [List.length_cons]
        omega
      rw [hfuel, drive_succ, hu]
      simp only [Cmd.run, hn2]
      rw [hd, hk]

/-- What `processAll` keeps: everything but the calls and the output of the active run. -/
theorem processAll_frame (es : List gptscript.Event) :
    ∀ r folded : Model, r.processAll es = .ok folded →
      folded.History = r.History ∧ folded.ChatState = r.ChatState ∧
      folded.Run.Input = r.Run.Input ∧ folded.Run.Error = r.Run.Error ∧
      folded.Run.Start = r.Run.Start ∧ folded.Run.End = r.Run.End := by
  induction es with
  | nil =>
    intro r folded h
    simp only [Model.processAll, Except.ok.injEq] at h
    rw [← h]
    simp
  | cons e rest ih =>
    intro r folded h
    simp only [Model.processAll] at h
    split at h
    · cases h
    · rename_i r1 hp
      have h1 := process_frame r r1 e hp
      have h2 := ih r1 folded h
      exact ⟨h2.1.trans h1.1, h2.2.1.trans h1.2.1, h2.2.2.1.trans h1.2.2.2.2.1,
        h2.2.2.2.1.trans h1.2.2.2.2.2.1, h2.2.2.2.2.1.trans h1.2.2.2.2.2.2.1,
        h2.2.2.2.2.2.trans h1.2.2.2.2.2.2.2.1⟩

/-! ## The claims -/

/-- C1: when the active run's status is not terminal, `Submit` returns the busy step;
running that step yields an envelope that carries only the error "run already running",
and the session after running it is the session before, field for field. -/
theorem submit_busy_rejected (r : Model) (client : gptscript.Client) (input : String)
    (now : time.Time) (h : IsTerminal r.Run.State = false) :
    r.Submit client input = Cmd.busy ∧
    (r.Submit client input).run r now =
      .ok (r, { Run := none, Event := none, Err := some "run already running", Output := "" }) := by
  have hs : r.Submit client input = Cmd.busy := by
    simp [Model.Submit, h]
  refine ⟨hs, ?_⟩
  rw [hs]
  rfl

theorem submit_busy_rejected_witness :
    IsTerminal sampleBusy.Run.State = false ∧
    (sampleBusy.Submit (constClient (.error "down")) "second").run sampleBusy 5 =
      .ok (sampleBusy, Event.busy) :=
  ⟨by decide, (submit_busy_rejected sampleBusy (constClient (.error "down")) "second" 5
    (by decide)).2⟩

/-- C2: when the active run's status is terminal, running the step of `Submit` succeeds
whatever the engine client answers (a run handle or a start error); afterwards the history
is the old history followed by the old active run when that run has at least one call, and
the old history otherwise; the new active run has an empty calls map, the given input,
start `now`, status `Creating`, empty output and error text and a zero end; the rest of
the session is unchanged. -/
theorem submit_installs_fresh_run (r : Model) (client : gptscript.Client) (input : String)
    (now : time.Time) (h : IsTerminal r.Run.State = true) :
    ∃ r' ev, (r.Submit client input).run r now = .ok (r', ev) ∧
      r'.History = (if r.Run.Calls.len ≠ 0 then r.History ++ [r.Run] else r.History) ∧
      r'.Run = { Calls := .mk [], Output := "", Input := input, Error := "",
                 Start := now, End := 0, State := Creating } ∧
      r'.ChatState = r.ChatState ∧ r'.ToolPath = r.ToolPath ∧ r'.Opt = r.Opt := by
  have hs : r.Submit client input = Cmd.start client input := by
    simp [Model.Submit, h]
  rw [hs]
  simp only [Cmd.run, Model.next]
  cases hc : client.Run r.ToolPath
      { r.Opt with IncludeEvents := true, ChatState := r.ChatState, Input := input } with
  | error err =>
    refine ⟨_, _, rfl, ?_⟩
    by_cases hl : r.Run.Calls.len = 0 <;> simp [hl]
  | ok run =>
    cases he : run.events with
    | nil =>
      simp only [Event.next, he]
      refine ⟨_, _, rfl, ?_⟩
      by_cases hl : r.Run.Calls.len = 0 <;> simp [hl]
    | cons e rest =>
      simp only [Event.next, he]
      refine ⟨_, _, rfl, ?_⟩
      by_cases hl : r.Run.Calls.len = 0 <;> simp [hl]

theorem submit_installs_fresh_run_witness :
    IsTerminal sampleDone.Run.State = true ∧
    ∃ r' ev, (sampleDone.Submit (constClient (.error "down")) "second").run sampleDone 5
        = .ok (r', ev) ∧
      r'.History = (if sampleDone.Run.Calls.len ≠ 0 then sampleDone.History ++ [sampleDone.Run]
        else sampleDone.History) ∧
      r'.Run = { Calls := .mk [], Output := "", Input := "second", Error := "",
                 Start := 5, End := 0, State := Creating } ∧
      r'.ChatState = sampleDone.ChatState ∧ r'.ToolPath = sampleDone.ToolPath ∧
      r'.Opt = sampleDone.Opt :=
  ⟨by decide, submit_installs_fresh_run sampleDone (constClient (.error "down")) "second" 5
    (by decide)⟩

/-- C3, the code at the failing input: on a session that has not run anything (empty
history, zero-value active run) the empty status is not terminal, so `Submit` returns the
busy step; running it starts no run, gives the error "run already running" and leaves the
zero-value active run in place. -/
theorem submit_unstarted_is_busy (toolPath : String) (opt : gptscript.Opts)
    (client : gptscript.Client) (input : String) (now : time.Time) :
    (Model.unstarted toolPath opt).Submit client input = Cmd.busy ∧
    ((Model.unstarted toolPath opt).Submit client input).run (Model.unstarted toolPath opt) now =
      .ok (Model.unstarted toolPath opt,
        { Run := none, Event := none, Err := some "run already running", Output := "" }) ∧
    IsTerminal (Model.unstarted toolPath opt).Run.State = false := by
  refine ⟨rfl, rfl, ?_⟩
  show IsTerminal "" = false
  decide

/-- C4: for a terminal-run envelope (no error, no progress event) with final text
`ev.Output` and an engine run reporting state `run.state`, token `run.chatState` and error
text `run.errorOutput`: when the state is `Continue` or `Finished`, `Update` returns no
next step, sets the output to the final text, the status to that state and the
continuation state to the token, and keeps the error text; when the state is `Error`,
`Update` returns no next step, sets the output to the final text, the status to `Error`
and the error text to the engine's, and keeps the continuation state; for every other
state `Update` does not return but panics with "invalid state" followed by the state. -/
theorem update_terminal_run (r : Model) (ev : chat.Event) (run : gptscript.Run)
    (now : time.Time) (hErr : ev.Err = none) (hEv : ev.Event = none)
    (hRun : ev.Run = some run) :
    ((run.state = Continue ∨ run.state = Finished) →
      ∃ r', r.Update ev now = .ok (r', none) ∧ r'.Run.Output = ev.Output ∧
        r'.Run.State = run.state ∧ r'.ChatState = run.chatState ∧
        r'.Run.Error = r.Run.Error) ∧
    (run.state = Error →
      ∃ r', r.Update ev now = .ok (r', none) ∧ r'.Run.Output = ev.Output ∧
        r'.Run.State = Error ∧ r'.Run.Error = run.errorOutput ∧
        r'.ChatState = r.ChatState) ∧
    (run.state ≠ Continue → run.state ≠ Finished → run.state ≠ Error →
      r.Update ev now = .error ("invalid state " ++ run.state)) := by
  refine ⟨?_, ?_, ?_⟩
  · intro hs
    have hfold : r.foldRun ev = .ok { r with
        Run := { r.Run with Output := ev.Output, State := run.state },
        ChatState := run.chatState } := by
      rcases hs with hs | hs <;> simp [Model.foldRun, hRun, hs, finished_ne_continue]
    have hu : r.Update ev now = .ok ((({ r with
        Run := { r.Run with Output := ev.Output, State := run.state },
        ChatState := run.chatState } : Model).lateErr ev).stampEnd now, none) := by
      simp only [Model.Update, hErr, hEv, hfold]
    refine ⟨_, hu, ?_⟩
    simp only [Model.lateErr, hErr, Model.stampEnd]
    split <;> simp
  · intro hs
    have hfold : r.foldRun ev = .ok { r with
        Run := { r.Run with Output := ev.Output, State := run.state,
                            Error := run.errorOutput } } := by
      simp [Model.foldRun, hRun, hs, error_ne_continue, error_ne_finished]
    have hu : r.Update ev now = .ok ((({ r with
        Run := { r.Run with Output := ev.Output, State := run.state,
                            Error := run.errorOutput } } : Model).lateErr ev).stampEnd now,
        none) := by
      simp only [Model.Update, hErr, hEv, hfold]
    refine ⟨_, hu, ?_⟩
    simp only [Model.lateErr, hErr, Model.stampEnd]
    split <;> simp [hs]
  · intro h1 h2 h3
    simp [Model.Update, hErr, hEv, Model.foldRun, hRun, h1, h2, h3]

theorem update_terminal_run_witness :
    ∃ r', sampleBusy.Update sampleTerminal 9 = .ok (r', none) ∧
      r'.Run.Output = sampleTerminal.Output ∧ r'.Run.State = sampleHandle.state ∧
      r'.ChatState = sampleHandle.chatState ∧ r'.Run.Error = sampleBusy.Run.Error :=
  (update_terminal_run sampleBusy sampleTerminal sampleHandle 9 rfl rfl rfl).1 (Or.inr rfl)

/-- C5, counterexample: the active run already has the error text "run already running";
folding a terminal-run envelope whose engine state is `Error` replaces it by the engine's
error text "tool failed". -/
theorem first_error_overwritten :
    sampleRejected.Run.Error ≠ "" ∧
    failedTerminal.Err = none ∧ failedTerminal.Event = none ∧
    failedTerminal.Run = some failedHandle ∧ failedHandle.state = Error ∧
    ∃ r', sampleRejected.Update failedTerminal 9 = .ok (r', none) ∧
      r'.Run.Error = "tool failed" ∧ r'.Run.Error ≠ sampleRejected.Run.Error :=
  ⟨by decide, rfl, rfl, rfl, rfl, _, rfl, rfl, by decide⟩

/-- C5, amended: for a terminal-run envelope whose engine state is `Error`, the error text
after `Update` is the engine's reported error text, whatever the error text was before; it
equals the earlier error text exactly when the two texts are the same. -/
theorem terminal_error_replaces_text (r : Model) (ev : chat.Event) (run : gptscript.Run)
    (now : time.Time) (hErr : ev.Err = none) (hEv : ev.Event = none)
    (hRun : ev.Run = some run) (hs : run.state = Error) :
    ∃ r', r.Update ev now = .ok (r', none) ∧ r'.Run.Error = run.errorOutput ∧
      (r'.Run.Error = r.Run.Error ↔ r.Run.Error = run.errorOutput) := by
  have hfold : r.foldRun ev = .ok { r with
      Run := { r.Run with Output := ev.Output, State := run.state,
                          Error := run.errorOutput } } := by
    simp [Model.foldRun, hRun, hs, error_ne_continue, error_ne_finished]
  have hu : r.Update ev now = .ok ((({ r with
      Run := { r.Run with Output := ev.Output, State := run.state,
                          Error := run.errorOutput } } : Model).lateErr ev).stampEnd now,
      none) := by
    simp only [Model.Update, hErr, hEv, hfold]
  have he : ((({ r with
      Run := { r.Run with Output := ev.Output, State := run.state,
                          Error := run.errorOutput } } : Model).lateErr ev).stampEnd now).Run.Error
      = run.errorOutput := by
    simp only [Model.lateErr, hErr, Model.stampEnd]
    split <;> simp
  refine ⟨_, hu, he, ?_⟩
  rw [he]
  exact eq_comm

theorem terminal_error_replaces_text_witness :
    ∃ r', sampleRejected.Update failedTerminal 9 = .ok (r', none) ∧
      r'.Run.Error = failedHandle.errorOutput ∧
      (r'.Run.Error = sampleRejected.Run.Error ↔
        sampleRejected.Run.Error = failedHandle.errorOutput) :=
  terminal_error_replaces_text sampleRejected failedTerminal failedHandle 9 rfl rfl rfl rfl

/-- C6, the code at the failing input: folding an error envelope into a run whose end is
unset returns at once: the status becomes `Error`, which is terminal, the error text is
recorded, and the end is still zero (unset), whatever `now` is. -/
theorem error_envelope_leaves_end_unset (now : time.Time) :
    time.IsZero sampleBusy.Run.End = true ∧
    ∃ r', sampleBusy.Update startFailure now = .ok (r', none) ∧
      IsTerminal r'.Run.State = true ∧ r'.Run.Error = "engine unreachable" ∧
      time.IsZero r'.Run.End = true :=
  ⟨rfl, _, rfl, by decide, rfl, rfl⟩

/-- C7: when the end of the active run is already set, `Update` with any envelope either
returns a session whose active run has the same end, or panics, which happens only on the
inputs of `updatePanics` (a non-empty call identifier on a nil calls map, or an engine
state that is not terminal). -/
theorem update_keeps_end (r : Model) (ev : chat.Event) (now : time.Time)
    (h : time.IsZero r.Run.End = false) :
    match r.Update ev now with
    | .ok (r', _) => r'.Run.End = r.Run.End
    | .error _ => r.updatePanics ev := by
  cases hErr : ev.Err with
  | some err =>
    rw [update_of_err r ev now err hErr]
  | none =>
    cases hEv : ev.Event with
    | some e =>
      cases hp : r.process e with
      | error p =>
        rw [update_of_event_panic r ev now e p hErr hEv hp]
        obtain ⟨cc, h1, h2, h3⟩ := process_panics r e p hp
        exact ⟨hErr, Or.inl ⟨e, cc, hEv, h1, h2, h3⟩⟩
      | ok r1 =>
        rw [update_of_event_ok r r1 ev now e hErr hEv hp]
        exact (process_frame r r1 e hp).2.2.2.2.2.2.2.1
    | none =>
      cases hf : r.foldRun ev with
      | error p =>
        rw [update_of_run_panic r ev now p hErr hEv hf]
        exact ⟨hErr, Or.inr ⟨hEv, foldRun_panics r ev p hf⟩⟩
      | ok r1 =>
        rw [update_of_run_ok r r1 ev now hErr hEv hf]
        have hfr := foldRun_frame r r1 ev hf
        have hls := lateErr_stampEnd r1 ev now hErr
        show ((r1.lateErr ev).stampEnd now).Run.End = r.Run.End
        rw [hls.2.2.2, hfr.2.2.2.2.2.2.1, h]
        simp

theorem update_keeps_end_witness :
    time.IsZero sampleDone.Run.End = false ∧
    match sampleDone.Update sampleTerminal 9 with
    | .ok (r', _) => r'.Run.End = sampleDone.Run.End
    | .error _ => sampleDone.updatePanics sampleTerminal :=
  ⟨by decide, update_keeps_end sampleDone sampleTerminal 9 (by decide)⟩

/-- C8, the code at the failing input. On the finished session `sampleDone` a `Submit`
starts the engine run `streamHandle`; its first envelope, a progress event, is folded and
the cursor still has an event to deliver. A second `Submit` is rejected as busy, but folding
its envelope sets the status of the active run to `Error`; a third `Submit` is then
accepted, and running its step replaces the active run, although the run of the first
`Submit` has delivered neither its terminal-run envelope nor an engine error. -/
theorem busy_error_reopens_submit :
    ∃ m1 env1 m2 m3 m4 env4,
      (sampleDone.Submit (constClient (.ok streamHandle)) "second").run sampleDone 5
        = .ok (m1, env1) ∧
      m1.Update env1 6 = .ok (m2, some (Cmd.resume env1)) ∧
      (∃ run e, env1.Run = some run ∧ run.events = [e]) ∧
      IsTerminal m2.Run.State = false ∧
      m2.Submit (constClient (.ok streamHandle)) "third" = Cmd.busy ∧
      (m2.Submit (constClient (.ok streamHandle)) "third").run m2 7 = .ok (m2, Event.busy) ∧
      m2.Update Event.busy 8 = .ok (m3, none) ∧
      m3.Run.Input = "second" ∧ m3.Run.State = Error ∧
      m3.Submit (constClient (.ok streamHandle)) "fourth"
        = Cmd.start (constClient (.ok streamHandle)) "fourth" ∧
      (m3.Submit (constClient (.ok streamHandle)) "fourth").run m3 9 = .ok (m4, env4) ∧
      m4.Run = Run.fresh "fourth" 9 ∧ m4.History = [sampleDone.Run, m3.Run] :=
  ⟨_, _, _, _, _, _, rfl, rfl, ⟨_, _, rfl, rfl⟩, rfl, rfl, rfl, rfl, rfl, rfl, rfl, rfl, rfl,
    rfl⟩

/-- C9: when the status of the active run is terminal, `Update` with any envelope either
returns a session whose active run is still terminal, and has exactly the old status when
the envelope is a progress event without an error, or panics, which happens only on the
inputs of `updatePanics`. -/
theorem update_keeps_terminal (r : Model) (ev : chat.Event) (now : time.Time)
    (h : IsTerminal r.Run.State = true) :
    match r.Update ev now with
    | .ok (r', _) =>
      IsTerminal r'.Run.State = true ∧
      (ev.Err = none → ev.Event ≠ none → r'.Run.State = r.Run.State)
    | .error _ => r.updatePanics ev := by
  cases hErr : ev.Err with
  | some err =>
    rw [update_of_err r ev now err hErr]
    refine ⟨?_, ?_⟩
    · show IsTerminal Error = true
      decide
    · intro h1
      cases h1
  | none =>
    cases hEv : ev.Event with
    | some e =>
      cases hp : r.process e with
      | error p =>
        rw [update_of_event_panic r ev now e p hErr hEv hp]
        obtain ⟨cc, h1, h2, h3⟩ := process_panics r e p hp
        exact ⟨hErr, Or.inl ⟨e, cc, hEv, h1, h2, h3⟩⟩
      | ok r1 =>
        rw [update_of_event_ok r r1 ev now e hErr hEv hp]
        have hst : r1.Run.State = r.Run.State := (process_frame r r1 e hp).2.2.2.2.2.2.2.2
        show IsTerminal r1.Run.State = true ∧ _
        rw [hst]
        exact ⟨h, fun _ _ => rfl⟩
    | none =>
      cases hf : r.foldRun ev with
      | error p =>
        rw [update_of_run_panic r ev now p hErr hEv hf]
        exact ⟨hErr, Or.inr ⟨hEv, foldRun_panics r ev p hf⟩⟩
      | ok r1 =>
        rw [update_of_run_ok r r1 ev now hErr hEv hf]
        have hfr := foldRun_frame r r1 ev hf
        have hls := lateErr_stampEnd r1 ev now hErr
        show IsTerminal ((r1.lateErr ev).stampEnd now).Run.State = true ∧ _
        rw [hls.1]
        refine ⟨?_, fun _ hne => absurd rfl hne⟩
        rcases hfr.2.2.2.2.2.2.2 with h1 | h1
        · rw [h1]
          exact h
        · exact h1

theorem update_keeps_terminal_witness :
    IsTerminal sampleDone.Run.State = true ∧
    match sampleDone.Update sampleProgress 9 with
    | .ok (r', _) =>
      IsTerminal r'.Run.State = true ∧
      (sampleProgress.Err = none → sampleProgress.Event ≠ none →
        r'.Run.State = sampleDone.Run.State)
    | .error _ => sampleDone.updatePanics sampleProgress :=
  ⟨by decide, update_keeps_terminal sampleDone sampleProgress 9 (by decide)⟩

/-- C10: starting from a session with empty history, after any sequence of `Submit` calls
whose step is run, runs of steps obtained earlier and `Update` calls, every run in the
history has at least one call. -/
theorem history_runs_have_calls (r0 r : Model) (as : List Action)
    (h0 : r0.History = []) (h : r0.acts as = .ok r) :
    ∀ run ∈ r.History, run.Calls.len ≠ 0 := by
  refine historyHasCalls_of_acts as r0 r ?_ h
  intro run hmem
  rw [h0] at hmem
  cases hmem

theorem history_runs_have_calls_witness :
    sampleDone.History = [] ∧
    ∃ r, sampleDone.acts sampleActions = .ok r ∧ r.History = [sampleDone.Run] ∧
      ∀ run ∈ r.History, run.Calls.len ≠ 0 :=
  ⟨rfl, _, rfl, rfl, history_runs_have_calls sampleDone _ sampleActions rfl rfl⟩

/-- C11: folding a progress event with a non-empty call identifier `id` either returns a
session in which `id` is a key of the calls map and `calls[id]` is the previous record for
`id` (the zero-value record when `id` was absent) with the call context overwritten by the
event's and then: for call-start, start and input set from the event, end and output
kept; for call-progress, output set, start, end and input kept; for call-finish, end and
output set, start and input kept; or it panics, which happens only on a nil calls map. -/
theorem process_replaces_call (r : Model) (e : gptscript.Event) (cc : gptscript.CallContext)
    (hcc : e.CallContext = some cc) (hid : cc.ID ≠ "") :
    match r.process e with
    | .ok r' =>
      r'.Run.Calls.contains cc.ID = true ∧
      (r.Run.Calls.contains cc.ID = false → r.Run.Calls.get cc.ID = Call.zero) ∧
      (e.Typ = EventTypeCallStart →
        r'.Run.Calls.get cc.ID =
          { r.Run.Calls.get cc.ID with
            CallContext := cc, Start := e.Time, Input := e.Content }) ∧
      (e.Typ = EventTypeCallProgress →
        r'.Run.Calls.get cc.ID =
          { r.Run.Calls.get cc.ID with CallContext := cc, Output := e.Content }) ∧
      (e.Typ = EventTypeCallFinish →
        r'.Run.Calls.get cc.ID =
          { r.Run.Calls.get cc.ID with
            CallContext := cc, End := e.Time, Output := e.Content })
    | .error _ => r.Run.Calls = .nil := by
  rcases calls_nil_or_mk r.Run.Calls with ⟨es, hm⟩ | hm
  · rw [process_of_mk r es e cc hm hcc hid]
    refine ⟨contains_mk_setEntry_self _ _ _, ?_, ?_, ?_, ?_⟩
    · intro habs
      unfold CallMap.contains at habs
      unfold CallMap.get
      cases hl : List.lookup cc.ID r.Run.Calls.entries with
      | none => rfl
      | some c =>
        rw [hl] at habs
        cases habs
    · intro ht
      show (CallMap.mk (setEntry es cc.ID _)).get cc.ID = _
      rw [get_mk_setEntry_self, if_pos ht]
    · intro ht
      show (CallMap.mk (setEntry es cc.ID _)).get cc.ID = _
      rw [get_mk_setEntry_self, if_neg (by rw [ht]; exact start_ne_progress.symm), if_pos ht]
    · intro ht
      show (CallMap.mk (setEntry es cc.ID _)).get cc.ID = _
      rw [get_mk_setEntry_self, if_neg (by rw [ht]; exact finish_ne_start),
        if_neg (by rw [ht]; exact finish_ne_progress), if_pos ht]
  · rw [process_of_nil r e cc hm hcc hid]
    exact hm

theorem process_replaces_call_witness :
    match sampleDone.process finishA with
    | .ok r' =>
      r'.Run.Calls.contains ctxA.ID = true ∧
      (sampleDone.Run.Calls.contains ctxA.ID = false →
        sampleDone.Run.Calls.get ctxA.ID = Call.zero) ∧
      (finishA.Typ = EventTypeCallStart →
        r'.Run.Calls.get ctxA.ID =
          { sampleDone.Run.Calls.get ctxA.ID with
            CallContext := ctxA, Start := finishA.Time, Input := finishA.Content }) ∧
      (finishA.Typ = EventTypeCallProgress →
        r'.Run.Calls.get ctxA.ID =
          { sampleDone.Run.Calls.get ctxA.ID with
            CallContext := ctxA, Output := finishA.Content }) ∧
      (finishA.Typ = EventTypeCallFinish →
        r'.Run.Calls.get ctxA.ID =
          { sampleDone.Run.Calls.get ctxA.ID with
            CallContext := ctxA, End := finishA.Time, Output := finishA.Content })
    | .error _ => sampleDone.Run.Calls = .nil :=
  process_replaces_call sampleDone finishA ctxA rfl (by decide)

/-- C12: folding a call-progress event with a non-empty call identifier `id` either
returns a session in which, when the parent identifier is empty, the run's output equals
`calls[id].output` and both equal the event's content, and, when the parent identifier is
not empty, the run's output is the one before; or it panics, which happens only on a nil
calls map. -/
theorem progress_mirrors_root_output (r : Model) (e : gptscript.Event)
    (cc : gptscript.CallContext) (hcc : e.CallContext = some cc) (hid : cc.ID ≠ "")
    (ht : e.Typ = EventTypeCallProgress) :
    match r.process e with
    | .ok r' =>
      (cc.ParentID = "" →
        r'.Run.Output = (r'.Run.Calls.get cc.ID).Output ∧ r'.Run.Output = e.Content ∧
        (r'.Run.Calls.get cc.ID).Output = e.Content) ∧
      (cc.ParentID ≠ "" → r'.Run.Output = r.Run.Output)
    | .error _ => r.Run.Calls = .nil := by
  rcases calls_nil_or_mk r.Run.Calls with ⟨es, hm⟩ | hm
  · rw [process_of_mk r es e cc hm hcc hid]
    have hcall : (CallMap.mk (setEntry es cc.ID
        (if e.Typ = EventTypeCallStart then
          { r.Run.Calls.get cc.ID with CallContext := cc, Start := e.Time, Input := e.Content }
         else if e.Typ = EventTypeCallProgress then
          { r.Run.Calls.get cc.ID with CallContext := cc, Output := e.Content }
         else if e.Typ = EventTypeCallFinish then
          { r.Run.Calls.get cc.ID with CallContext := cc, End := e.Time, Output := e.Content }
         else { r.Run.Calls.get cc.ID with CallContext := cc }))).get cc.ID
        = { r.Run.Calls.get cc.ID with CallContext := cc, Output := e.Content } := by
      rw [get_mk_setEntry_self, if_neg (by rw [ht]; exact start_ne_progress.symm), if_pos ht]
    refine ⟨?_, ?_⟩
    · intro hp
      have hout : (if e.Typ = EventTypeCallProgress ∧ cc.ParentID = "" then e.Content
          else r.Run.Output) = e.Content := if_pos ⟨ht, hp⟩
      refine ⟨?_, hout, ?_⟩
      · show (if e.Typ = EventTypeCallProgress ∧ cc.ParentID = "" then e.Content
          else r.Run.Output) = (CallMap.get _ cc.ID).Output
        rw [hout, hcall]
      · show (CallMap.get _ cc.ID).Output = e.Content
        rw [hcall]
    · intro hp
      show (if e.Typ = EventTypeCallProgress ∧ cc.ParentID = "" then e.Content
        else r.Run.Output) = r.Run.Output
      rw [if_neg (fun h => hp h.2)]
  · rw [process_of_nil r e cc hm hcc hid]
    exact hm

theorem progress_mirrors_root_output_witness :
    match sampleDone.process progressA with
    | .ok r' =>
      (ctxA.ParentID = "" →
        r'.Run.Output = (r'.Run.Calls.get ctxA.ID).Output ∧
        r'.Run.Output = progressA.Content ∧
        (r'.Run.Calls.get ctxA.ID).Output = progressA.Content) ∧
      (ctxA.ParentID ≠ "" → r'.Run.Output = sampleDone.Run.Output)
    | .error _ => sampleDone.Run.Calls = .nil :=
  progress_mirrors_root_output sampleDone progressA ctxA rfl (by decide) rfl

/-- C13: a progress event whose call context is missing or whose call identifier is empty
is folded as a no-op: `process` returns the session it was given, and `Update` on the
progress-event envelope returns that same session, whatever the event's kind, time and
content. -/
theorem process_ignores_unidentified (r : Model) (e : gptscript.Event)
    (h : e.CallContext = none ∨ ∃ cc, e.CallContext = some cc ∧ cc.ID = "") :
    r.process e = .ok r ∧
    ∀ (ev : chat.Event) (now : time.Time), ev.Err = none → ev.Event = some e →
      r.Update ev now = .ok (r, some (Cmd.resume ev)) := by
  have hp : r.process e = .ok r := by
    unfold Model.process
    rcases h with h | ⟨cc, h, hid⟩
    · simp only [h]
    · simp only [h, hid, if_true]
  exact ⟨hp, fun ev now hErr hEv => update_of_event_ok r r ev now e hErr hEv hp⟩

theorem process_ignores_unidentified_witness :
    sampleDone.process progressAnonymous = .ok sampleDone ∧
    ∀ (ev : chat.Event) (now : time.Time), ev.Err = none → ev.Event = some progressAnonymous →
      sampleDone.Update ev now = .ok (sampleDone, some (Cmd.resume ev)) :=
  process_ignores_unidentified sampleDone progressAnonymous (Or.inl rfl)

/-- C14: `Update` either returns, and then it returns the step that resumes the cursor of
the envelope it was given exactly when the envelope carries a progress event and no error,
and nothing for every other envelope (every error envelope, every terminal-run envelope);
or it panics, which happens only on the inputs of `updatePanics`. -/
theorem update_next_step (r : Model) (ev : chat.Event) (now : time.Time) :
    match r.Update ev now with
    | .ok (_, c) =>
      (ev.Err = none ∧ ev.Event ≠ none → c = some (Cmd.resume ev)) ∧
      (ev.Err ≠ none ∨ ev.Event = none → c = none) ∧
      (c ≠ none → ev.Err = none ∧ ev.Event ≠ none)
    | .error _ => r.updatePanics ev := by
  cases hErr : ev.Err with
  | some err =>
    rw [update_of_err r ev now err hErr]
    refine ⟨fun h => ?_, fun _ => rfl, fun h => absurd rfl h⟩
    cases h.1
  | none =>
    cases hEv : ev.Event with
    | some e =>
      cases hp : r.process e with
      | error p =>
        rw [update_of_event_panic r ev now e p hErr hEv hp]
        obtain ⟨cc, h1, h2, h3⟩ := process_panics r e p hp
        exact ⟨hErr, Or.inl ⟨e, cc, hEv, h1, h2, h3⟩⟩
      | ok r1 =>
        rw [update_of_event_ok r r1 ev now e hErr hEv hp]
        refine ⟨fun _ => rfl, fun h => ?_, fun _ => ⟨rfl, fun h => by cases h⟩⟩
        rcases h with h | h
        · exact absurd rfl h
        · cases h
    | none =>
      cases hf : r.foldRun ev with
      | error p =>
        rw [update_of_run_panic r ev now p hErr hEv hf]
        exact ⟨hErr, Or.inr ⟨hEv, foldRun_panics r ev p hf⟩⟩
      | ok r1 =>
        rw [update_of_run_ok r r1 ev now hErr hEv hf]
        exact ⟨fun h => absurd rfl h.2, fun _ => rfl, fun h => absurd rfl h⟩

/-- C15: on a session whose active status is terminal, with an engine client that starts
a run delivering the events `run.events`, then closing with final text `run.text` (no
retrieval error) in state `Continue` or `Finished`: the events fold in stream order into
the session right after the step of `Submit`, whose calls map is empty, and with any fuel
of at least `length + 1` the loop (run the step of `Submit`, then `Update` the envelope and
run the returned step until `Update` returns nothing) ends after exactly `length + 1`
calls of `Update`; the final active run has the calls of that fold, output the final text,
status the engine state, and end equal to the time of the last `Update`, which is a set
end when that time is not zero; the input and start are those of the `Submit`, the
continuation state is the engine's and the history is the one right after the step. -/
theorem turn_folds_stream (r : Model) (client : gptscript.Client) (input : String)
    (now : time.Time) (clock : Nat → time.Time) (run : gptscript.Run)
    (h : IsTerminal r.Run.State = true)
    (hc : client.Run r.ToolPath
      { r.Opt with IncludeEvents := true, ChatState := r.ChatState, Input := input }
        = .ok run)
    (htx : run.textErr = none) (hs : run.state = Continue ∨ run.state = Finished) :
    (r.started input now).Run.Calls = .mk [] ∧
    ∃ folded final, (r.started input now).processAll run.events = .ok folded ∧
      (∀ extra, r.submitAndDrive client input now clock (extra + run.events.length + 1) =
        .ok (final, run.events.length + 1)) ∧
      final.Run.Calls = folded.Run.Calls ∧ final.Run.Output = run.text ∧
      final.Run.State = run.state ∧ final.Run.End = clock run.events.length ∧
      (clock run.events.length ≠ 0 → time.IsZero final.Run.End = false) ∧
      final.Run.Input = input ∧ final.Run.Start = now ∧
      final.ChatState = run.chatState ∧ final.History = (r.started input now).History := by
  refine ⟨rfl, ?_⟩
  have hs1 : r.Submit client input = Cmd.start client input := by
    simp [Model.Submit, h]
  have hm : ∃ cs, (r.started input now).Run.Calls = .mk cs := ⟨[], rfl⟩
  obtain ⟨env, folded, hn, hfold, -⟩ := drive_cursor clock run.events 0 0
    (r.started input now) { Run := some run, Event := none, Err := none, Output := "" } run
    rfl rfl rfl htx hs hm
  have hfr := processAll_frame run.events (r.started input now) folded hfold
  refine ⟨folded, { folded with
      Run := { folded.Run with Output := run.text, State := run.state,
                               End := clock run.events.length },
      ChatState := run.chatState }, hfold, ?_, rfl, rfl, rfl, rfl, ?_, hfr.2.2.1,
    hfr.2.2.2.2.1, rfl, hfr.1⟩
  · intro extra
    obtain ⟨env2, folded2, hn2, hfold2, hd⟩ := drive_cursor clock run.events extra 0
      (r.started input now) { Run := some run, Event := none, Err := none, Output := "" } run
      rfl rfl rfl htx hs hm
    rw [hn] at hn2
    rw [hfold] at hfold2
    cases hn2
    cases hfold2
    have hrun : (r.Submit client input).run r now = .ok (r.started input now, env) := by
      rw [hs1]
      simp only [Cmd.run, Model.next, hc, hn]
      rfl
    have hend : folded.Run.End = 0 := hfr.2.2.2.2.2
    simp only [Model.submitAndDrive, hrun, hd, Nat.zero_add]
    simp [Model.stampEnd, time.IsZero, hend]
  · intro hne
    simpa [time.IsZero] using hne

theorem turn_folds_stream_witness :
    ((sampleDone.started "list files" 5).Run.Calls = .mk [] ∧
      ∃ folded final,
        (sampleDone.started "list files" 5).processAll listHandle.events = .ok folded ∧
        (∀ extra, sampleDone.submitAndDrive (constClient (.ok listHandle)) "list files" 5
            sampleClock (extra + listHandle.events.length + 1) =
          .ok (final, listHandle.events.length + 1)) ∧
        final.Run.Calls = folded.Run.Calls ∧ final.Run.Output = listHandle.text ∧
        final.Run.State = listHandle.state ∧
        final.Run.End = sampleClock listHandle.events.length ∧
        (sampleClock listHandle.events.length ≠ 0 → time.IsZero final.Run.End = false) ∧
        final.Run.Input = "list files" ∧ final.Run.Start = 5 ∧
        final.ChatState = listHandle.chatState ∧
        final.History = (sampleDone.started "list files" 5).History) ∧
    ∃ final, sampleDone.submitAndDrive (constClient (.ok listHandle)) "list files" 5
        sampleClock 3 = .ok (final, 3) ∧
      final.Run.Output = "a.txt\nb.txt" ∧ final.Run.State = Finished ∧
      (final.Run.Calls.get "A").Output = "a.txt\nb.txt" ∧
      final.Run.Calls.len = 1 ∧ final.Run.End = 12 ∧ final.History = [sampleDone.Run] :=
  ⟨turn_folds_stream sampleDone (constClient (.ok listHandle)) "list files" 5 sampleClock
      listHandle (by decide) rfl rfl (Or.inr rfl),
    _, rfl, rfl, rfl, rfl, rfl, rfl, rfl⟩

/-- C16: on a session whose active status is terminal, when the engine client answers the
start with the error text `m`: running the step of `Submit` yields an error envelope
carrying `m`; after `Update` folds it the active run has status `Error`, error text `m` and
an empty calls map; the next `Submit` is accepted, and after its step has run the history is
what it was right after the failed step, so the failed run is not in it (given that every
run in the history before had calls). -/
theorem start_failure_dropped (r : Model) (client : gptscript.Client) (input m : String)
    (now now1 : time.Time) (h : IsTerminal r.Run.State = true)
    (hc : client.Run r.ToolPath
      { r.Opt with IncludeEvents := true, ChatState := r.ChatState, Input := input }
        = .error m) :
    ∃ r1 r2, (r.Submit client input).run r now =
        .ok (r1, { Run := none, Event := none, Err := some m, Output := "" }) ∧
      r1.Update { Run := none, Event := none, Err := some m, Output := "" } now1
        = .ok (r2, none) ∧
      r2.Run.State = Error ∧ r2.Run.Error = m ∧ r2.Run.Calls = .mk [] ∧
      ∀ (client2 : gptscript.Client) (input2 : String) (now2 : time.Time),
        r2.Submit client2 input2 = Cmd.start client2 input2 ∧
        ∃ r3 ev3, (r2.Submit client2 input2).run r2 now2 = .ok (r3, ev3) ∧
          r3.History = r1.History ∧ r3.Run.Input = input2 ∧
          (r.historyHasCalls → r2.Run ∉ r3.History) := by
  have hs : r.Submit client input = Cmd.start client input := by
    simp [Model.Submit, h]
  have hrun : (r.Submit client input).run r now =
      .ok ({ (if r.Run.Calls.len ≠ 0 then
              ({ r with History := r.History ++ [r.Run] } : Model) else r) with
            Run := { Calls := .mk [], Output := "", Input := input, Error := "",
                     Start := now, End := 0, State := Creating } },
        { Run := none, Event := none, Err := some m, Output := "" }) := by
    rw [hs]
    simp only [Cmd.run, Model.next, hc]
  refine ⟨_, _, hrun, rfl, rfl, rfl, rfl, ?_⟩
  intro client2 input2 now2
  have hs2 : ∀ r2 : Model, r2.Run.State = Error →
      r2.Submit client2 input2 = Cmd.start client2 input2 := by
    intro r2 h2
    have ht : IsTerminal r2.Run.State = true := by
      rw [h2]
      decide
    simp [Model.Submit, ht]
  refine ⟨hs2 _ rfl, ?_⟩
  rw [hs2 _ rfl]
  obtain ⟨r3, ev3, h3, hh, hr, -⟩ := submit_start_result _ client2 input2 now2
  refine ⟨r3, ev3, h3, ?_, ?_, ?_⟩
  · rw [hh]
    simp [CallMap.len, CallMap.entries]
  · rw [hr]
  · intro hi hmem
    rw [hh] at hmem
    simp only [CallMap.len, CallMap.entries, List.length_nil, ne_eq, not_true_eq_false,
      if_false] at hmem
    have hlen : ∀ run ∈ (if r.Run.Calls.len ≠ 0 then
        ({ r with History := r.History ++ [r.Run] } : Model) else r).History,
        run.Calls.len ≠ 0 := by
      intro run hrun'
      by_cases hl : r.Run.Calls.len = 0
      · simp only [hl, ne_eq, not_true_eq_false, if_false] at hrun'
        exact hi run hrun'
      · simp only [hl, ne_eq, not_false_eq_true, if_true, List.mem_append,
          List.mem_singleton] at hrun'
        rcases hrun' with hrun' | hrun'
        · exact hi run hrun'
        · rw [hrun']
          exact hl
    exact hlen _ hmem rfl

theorem start_failure_dropped_witness :
    ∃ r1 r2, (sampleDone.Submit (constClient (.error "engine unreachable")) "second").run
        sampleDone 5 =
        .ok (r1, { Run := none, Event := none, Err := some "engine unreachable",
                   Output := "" }) ∧
      r1.Update { Run := none, Event := none, Err := some "engine unreachable", Output := "" } 6
        = .ok (r2, none) ∧
      r2.Run.State = Error ∧ r2.Run.Error = "engine unreachable" ∧ r2.Run.Calls = .mk [] ∧
      ∀ (client2 : gptscript.Client) (input2 : String) (now2 : time.Time),
        r2.Submit client2 input2 = Cmd.start client2 input2 ∧
        ∃ r3 ev3, (r2.Submit client2 input2).run r2 now2 = .ok (r3, ev3) ∧
          r3.History = r1.History ∧ r3.Run.Input = input2 ∧
          (sampleDone.historyHasCalls → r2.Run ∉ r3.History) :=
  start_failure_dropped sampleDone (constClient (.error "engine unreachable")) "second"
    "engine unreachable" 5 6 (by decide) rfl

/-- C17: folding an error envelope changes only the error text and the status of the
active run: `Update` returns no step, the error text is the envelope's, the status is
`Error`, and the calls map, output, input, start and end of the active run, the history,
the continuation state and the configuration are the ones before. -/
theorem error_envelope_frame (r : Model) (ev : chat.Event) (now : time.Time) (err : String)
    (hErr : ev.Err = some err) :
    ∃ r', r.Update ev now = .ok (r', none) ∧
      r'.Run.Error = err ∧ r'.Run.State = Error ∧
      r'.Run.Calls = r.Run.Calls ∧ r'.Run.Output = r.Run.Output ∧
      r'.Run.Input = r.Run.Input ∧ r'.Run.Start = r.Run.Start ∧ r'.Run.End = r.Run.End ∧
      r'.History = r.History ∧ r'.ChatState = r.ChatState ∧
      r'.ToolPath = r.ToolPath ∧ r'.Opt = r.Opt :=
  ⟨_, update_of_err r ev now err hErr, rfl, rfl, rfl, rfl, rfl, rfl, rfl, rfl, rfl, rfl, rfl⟩

theorem error_envelope_frame_witness :
    ∃ r', sampleDone.Update startFailure 9 = .ok (r', none) ∧
      r'.Run.Error = "engine unreachable" ∧ r'.Run.State = Error ∧
      r'.Run.Calls = sampleDone.Run.Calls ∧ r'.Run.Output = sampleDone.Run.Output ∧
      r'.Run.Input = sampleDone.Run.Input ∧ r'.Run.Start = sampleDone.Run.Start ∧
      r'.Run.End = sampleDone.Run.End ∧
      r'.History = sampleDone.History ∧ r'.ChatState = sampleDone.ChatState ∧
      r'.ToolPath = sampleDone.ToolPath ∧ r'.Opt = sampleDone.Opt :=
  error_envelope_frame sampleDone startFailure 9 "engine unreachable" rfl

/-- C18: advancing a cursor `r` on the engine run `run`. When the stream is exhausted and
the final-text retrieval fails with `x`, the envelope has no progress event and carries the
error `x`; folding it sets the status to `Error` and the error text to `x`, returns no
step and leaves the output of the active run as it was (the retrieved text is not applied).
When the stream is exhausted and the retrieval succeeds, the envelope of a cursor that
carried no error has no progress event and no error and carries the retrieved text. When
the stream still has an event, the envelope carries that event and the cursor has moved
past that one event only. -/
theorem next_envelope (r : chat.Event) (run : gptscript.Run) (hRun : r.Run = some run) :
    (∀ x, run.events = [] → run.textErr = some x →
      ∃ env, r.next = .ok env ∧ env.Event = none ∧ env.Err = some x ∧
        ∀ (m : Model) (now : time.Time), ∃ m', m.Update env now = .ok (m', none) ∧
          m'.Run.State = Error ∧ m'.Run.Error = x ∧ m'.Run.Output = m.Run.Output) ∧
    (run.events = [] → run.textErr = none → r.Err = none →
      ∃ env, r.next = .ok env ∧ env.Event = none ∧ env.Err = none ∧
        env.Output = run.text ∧ env.Run = some run) ∧
    (∀ e rest, run.events = e :: rest →
      ∃ env, r.next = .ok env ∧ env.Event = some e ∧
        env.Run = some { run with events := rest } ∧
        env.Err = r.Err ∧ env.Output = r.Output) := by
  refine ⟨?_, ?_, ?_⟩
  · intro x he hx
    have hn : r.next = .ok { r with Err := some x, Output := run.text, Event := none } := by
      simp only [Event.next, hRun, he, hx]
    refine ⟨_, hn, rfl, rfl, ?_⟩
    intro m now
    exact ⟨_, update_of_err m _ now x rfl, rfl, rfl, rfl⟩
  · intro he hx hErr
    have hn : r.next = .ok { r with Output := run.text, Event := none } := by
      simp only [Event.next, hRun, he, hx]
    exact ⟨_, hn, rfl, hErr, rfl, hRun⟩
  · intro e rest he
    have hn : r.next =
        .ok { r with Run := some { run with events := rest }, Event := some e } := by
      simp only [Event.next, hRun, he]
    exact ⟨_, hn, rfl, rfl, rfl, rfl⟩

theorem next_envelope_witness :
    (∀ x, brokenHandle.events = [] → brokenHandle.textErr = some x →
      ∃ env, brokenCursor.next = .ok env ∧ env.Event = none ∧ env.Err = some x ∧
        ∀ (m : Model) (now : time.Time), ∃ m', m.Update env now = .ok (m', none) ∧
          m'.Run.State = Error ∧ m'.Run.Error = x ∧ m'.Run.Output = m.Run.Output) ∧
    (brokenHandle.events = [] → brokenHandle.textErr = none → brokenCursor.Err = none →
      ∃ env, brokenCursor.next = .ok env ∧ env.Event = none ∧ env.Err = none ∧
        env.Output = brokenHandle.text ∧ env.Run = some brokenHandle) ∧
    (∀ e rest, brokenHandle.events = e :: rest →
      ∃ env, brokenCursor.next = .ok env ∧ env.Event = some e ∧
        env.Run = some { brokenHandle with events := rest } ∧
        env.Err = brokenCursor.Err ∧ env.Output = brokenCursor.Output) :=
  next_envelope brokenCursor brokenHandle rfl

/-- C19: `Update` and its variant without the error check of lines 112-115 return the
same session and the same step (or the same panic) on every session, envelope and time. -/
theorem update_late_check_dead (r : Model) (ev : chat.Event) (now : time.Time) :
    r.Update ev now = r.UpdateNoLateErr ev now := by
  unfold Model.Update Model.UpdateNoLateErr
  cases hErr : ev.Err with
  | some err => rfl
  | none =>
    have hl : ∀ r1 : Model, r1.lateErr ev = r1 := by
      intro r1
      simp only [Model.lateErr, hErr]
    simp only [hl]

/-- C20: folding a progress event with a non-empty call identifier `id` either returns a
session in which every identifier other than `id` has the entry it had before (the same
record, or none), the keys of the calls map are the keys before plus `id` (whatever the
event's kind), the input, error text, start, end and status of the active run, the
history, the continuation state and the configuration are unchanged, and the run's output
is unchanged for every kind other than call-progress (so for call-start and call-finish,
also of a root call); or it panics, which happens only on a nil calls map. -/
theorem process_touches_one_call (r : Model) (e : gptscript.Event)
    (cc : gptscript.CallContext) (hcc : e.CallContext = some cc) (hid : cc.ID ≠ "") :
    match r.process e with
    | .ok r' =>
      (∀ k, k ≠ cc.ID →
        r'.Run.Calls.entries.lookup k = r.Run.Calls.entries.lookup k ∧
        r'.Run.Calls.get k = r.Run.Calls.get k) ∧
      (∀ k, r'.Run.Calls.contains k = true ↔ (r.Run.Calls.contains k = true ∨ k = cc.ID)) ∧
      r'.Run.Input = r.Run.Input ∧ r'.Run.Error = r.Run.Error ∧
      r'.Run.Start = r.Run.Start ∧ r'.Run.End = r.Run.End ∧ r'.Run.State = r.Run.State ∧
      (e.Typ ≠ EventTypeCallProgress → r'.Run.Output = r.Run.Output) ∧
      (e.Typ = EventTypeCallStart ∨ e.Typ = EventTypeCallFinish →
        r'.Run.Output = r.Run.Output) ∧
      r'.History = r.History ∧ r'.ChatState = r.ChatState ∧
      r'.ToolPath = r.ToolPath ∧ r'.Opt = r.Opt
    | .error _ => r.Run.Calls = .nil := by
  rcases calls_nil_or_mk r.Run.Calls with ⟨es, hm⟩ | hm
  · rw [process_of_mk r es e cc hm hcc hid]
    have hout : e.Typ ≠ EventTypeCallProgress →
        (if e.Typ = EventTypeCallProgress ∧ cc.ParentID = "" then e.Content
          else r.Run.Output) = r.Run.Output := fun hne => if_neg (fun h => hne h.1)
    have hlook : ∀ (v : Call) (k : String), k ≠ cc.ID →
        (CallMap.mk (setEntry es cc.ID v)).entries.lookup k = r.Run.Calls.entries.lookup k := by
      intro v k hk
      rw [hm]
      exact lookup_setEntry_other es cc.ID k v hk
    refine ⟨?_, ?_, rfl, rfl, rfl, rfl, rfl, hout, ?_, rfl, rfl, rfl, rfl⟩
    · intro k hk
      refine ⟨hlook _ k hk, ?_⟩
      show ((CallMap.mk (setEntry es cc.ID _)).entries.lookup k).getD Call.zero =
        (r.Run.Calls.entries.lookup k).getD Call.zero
      rw [hlook _ k hk]
    · intro k
      by_cases hk : k = cc.ID
      · rw [hk]
        exact ⟨fun _ => Or.inr rfl, fun _ => contains_mk_setEntry_self _ _ _⟩
      · show ((CallMap.mk (setEntry es cc.ID _)).entries.lookup k).isSome = true ↔
          ((r.Run.Calls.entries.lookup k).isSome = true ∨ k = cc.ID)
        rw [hlook _ k hk]
        exact ⟨fun h => Or.inl h, fun h => h.resolve_right hk⟩
    · intro ht
      apply hout
      rcases ht with ht | ht
      · rw [ht]
        exact start_ne_progress
      · rw [ht]
        exact finish_ne_progress
  · rw [process_of_nil r e cc hm hcc hid]
    exact hm

theorem process_touches_one_call_witness :
    match sampleDone.process startA with
    | .ok r' =>
      (∀ k, k ≠ ctxA.ID →
        r'.Run.Calls.entries.lookup k = sampleDone.Run.Calls.entries.lookup k ∧
        r'.Run.Calls.get k = sampleDone.Run.Calls.get k) ∧
      (∀ k, r'.Run.Calls.contains k = true ↔
        (sampleDone.Run.Calls.contains k = true ∨ k = ctxA.ID)) ∧
      r'.Run.Input = sampleDone.Run.Input ∧ r'.Run.Error = sampleDone.Run.Error ∧
      r'.Run.Start = sampleDone.Run.Start ∧ r'.Run.End = sampleDone.Run.End ∧
      r'.Run.State = sampleDone.Run.State ∧
      (startA.Typ ≠ EventTypeCallProgress → r'.Run.Output = sampleDone.Run.Output) ∧
      (startA.Typ = EventTypeCallStart ∨ startA.Typ = EventTypeCallFinish →
        r'.Run.Output = sampleDone.Run.Output) ∧
      r'.History = sampleDone.History ∧ r'.ChatState = sampleDone.ChatState ∧
      r'.ToolPath = sampleDone.ToolPath ∧ r'.Opt = sampleDone.Opt
    | .error _ => sampleDone.Run.Calls = .nil :=
  process_touches_one_call sampleDone startA ctxA rfl (by decide)

end chat
